import Mathlib

/-!
Verification of the EduAI backend scoring and gamification logic.

The definitions below are a shallow embedding of the Python code in
`apps/assessments/models.py` (`Question`, `AssessmentAttempt.calculate_score`),
`apps/assessments/views.py` (the skill-gap aggregation in
`AssessmentViewSet.submit`) and `apps/gamification/models.py`
(`UserGamification.calculate_level`).

Numbers produced by Python's true division are modelled as rationals (`ℚ`);
Python's `round(x, 2)` (round-half-to-even) is modelled by `pyRound2`.
JSON values stored in the `answers` field are modelled by `JValue`
(floats appear as rationals).  Python dictionaries are modelled by
insertion-ordered association lists.
-/

namespace EduAI

/-- One entry of a question's `options` JSON list, `{text, isCorrect}`.
A missing `isCorrect` key is falsy in Python (`option.get('isCorrect')`),
so it is modelled as `isCorrect = false`. -/
structure QOption where
  text : String
  isCorrect : Bool
deriving Repr, DecidableEq

/-- A `Question` row: the fields `calculate_score` and `get_correct_answer`
read.  `skill_category` is nullable (`none`) and may be the empty string. -/
structure Question where
  id : Nat
  options : List QOption
  skill_category : Option String
  points : Nat
deriving Repr, DecidableEq

/-- `question.skill_category or 'General'`: Python `or` replaces both `None`
and the falsy empty string by `'General'`. -/
def skillOf (q : Question) : String :=
  match q.skill_category with
  | none => "General"
  | some s => if s = "" then "General" else s

/-- `Question.get_correct_answer`: the text of the first option whose
`isCorrect` flag is truthy, scanning in stored order; `None` if there is
none. -/
def get_correct_answer (q : Question) : Option String :=
  (q.options.find? (fun o => o.isCorrect)).map (fun o => o.text)

/-- Position of the first option flagged correct, if any. -/
def firstCorrectIdx (q : Question) : Option Nat :=
  q.options.findIdx? (fun o => o.isCorrect)

/-- A JSON value, as stored in the `answers` JSONField
(`{question_id: selected_option_index}` is the documented shape, but the
field can hold any JSON).  Floats are modelled as rationals. -/
inductive JValue where
  | jnull : JValue
  | jbool : Bool → JValue
  | jint : Int → JValue
  | jfloat : Rat → JValue
  | jstr : String → JValue
  | jarr : List JValue → JValue
  | jobj : List (String × JValue) → JValue
deriving Repr

/-- Result of Python's `int(x)`: a value, a `ValueError` (caught by
`calculate_score`'s `except` clause) or a `TypeError` (not caught). -/
inductive PyIntResult where
  | ok : Int → PyIntResult
  | valueError : PyIntResult
  | typeError : PyIntResult
deriving Repr, DecidableEq

/-- Numeric value of a nonempty all-digit character list. -/
def digitsVal (cs : List Char) : Option Nat :=
  if cs.isEmpty then none
  else if cs.all Char.isDigit then
    some (cs.foldl (fun a c => a * 10 + (c.toNat - 48)) 0)
  else none

/-- Python `int(s)` for a string: surrounding whitespace is stripped, an
optional single sign precedes a nonempty run of decimal digits; anything
else raises `ValueError` (modelled as `none`). -/
def pyStrToInt (s : String) : Option Int :=
  match s.trim.toList with
  | [] => none
  | c :: rest =>
    if c = '-' then (digitsVal rest).map (fun n => -(n : Int))
    else if c = '+' then (digitsVal rest).map (fun n => (n : Int))
    else (digitsVal (c :: rest)).map (fun n => (n : Int))

/-- Truncation toward zero, the behaviour of Python `int` on a float
(for a negative rational this is the ceiling, written via the floor of
the negation). -/
def pyTrunc (q : Rat) : Int :=
  if 0 ≤ q then ⌊q⌋ else -⌊-q⌋

/-- Python `int(answer)` on a JSON value: bools are 0/1, ints are
themselves, floats truncate, strings parse decimally (`ValueError` on
failure), and lists/objects (and `None`) raise `TypeError`. -/
def pyIntOf : JValue → PyIntResult
  | .jnull => .typeError
  | .jbool b => .ok (if b then 1 else 0)
  | .jint n => .ok n
  | .jfloat q => .ok (pyTrunc q)
  | .jstr s =>
    match pyStrToInt s with
    | some n => .ok n
    | none => .valueError
  | .jarr _ => .typeError
  | .jobj _ => .typeError

/-- Python list indexing `xs[i]`: a negative index counts from the end
(`len(xs) + i`); an index out of `[-len, len)` raises `IndexError`
(modelled as `none`). -/
def pyIndex {α : Type} (xs : List α) (i : Int) : Option α :=
  let j : Int := if i < 0 then (xs.length : Int) + i else i
  if 0 ≤ j then xs.get? j.toNat else none

/-- Lookup in an insertion-ordered association list (Python `dict.get`). -/
def dictGet {α : Type} : List (String × α) → String → Option α
  | [], _ => none
  | (k0, v0) :: rest, k => if k0 == k then some v0 else dictGet rest k

/-- Lookup with a default (Python `dict.get(k, dflt)`). -/
def dictGetD {α : Type} (d : List (String × α)) (k : String) (dflt : α) : α :=
  (dictGet d k).getD dflt

/-- Python `d[k] = v` on an insertion-ordered dict: an existing key keeps
its position, a new key is appended at the end. -/
def dictSet {α : Type} : List (String × α) → String → α → List (String × α)
  | [], k, v => [(k, v)]
  | (k0, v0) :: rest, k, v =>
    if k0 == k then (k0, v) :: rest else (k0, v0) :: dictSet rest k v

/-- Keys of an association list, in insertion order. -/
def keys {α : Type} : List (String × α) → List String
  | [] => []
  | (k, _) :: rest => k :: keys rest

/-- Round a rational to the nearest integer, ties to the even integer:
the rounding of Python's `round`. -/
def roundHalfEven (x : Rat) : Int :=
  let f := ⌊x⌋
  let r := x - (f : Rat)
  if r < 1/2 then f
  else if 1/2 < r then f + 1
  else if f % 2 = 0 then f else f + 1

/-- Python `round(x, 2)`. -/
def pyRound2 (x : Rat) : Rat := (roundHalfEven (x * 100) : Rat) / 100

/-- Rounding to 2 decimal places with ties away from zero upward
("half-up"), the rounding the specification prescribes. -/
def roundHalfUp2 (x : Rat) : Rat := (⌊x * 100 + 1/2⌋ : Rat) / 100

/-- Whether a stored JSON value is `null`, i.e. Python `None` (a stored
`null` fails the `if answer is not None` guard exactly like a missing
key). -/
def isJNull : JValue → Bool
  | .jnull => true
  | _ => false

/-- The answer check of `calculate_score` for one question:
`answers.get(str(question.id))`, the `is not None` guard, then the `try`
block `question.options[int(answer)]` with the selected option's own
`isCorrect` flag.  `Except.ok b` means the question was scored with
correctness `b`; `Except.error ()` models an uncaught `TypeError`. -/
def checkAnswer (answers : List (String × JValue)) (q : Question) :
    Except Unit Bool :=
  match dictGet answers (toString q.id) with
  | none => .ok false
  | some a =>
    if isJNull a then .ok false
    else
      match pyIntOf a with
      | .typeError => .error ()
      | .valueError => .ok false
      | .ok n =>
        match pyIndex q.options n with
        | none => .ok false
        | some opt => .ok opt.isCorrect

/-- Answer values on which `int(answer)` cannot raise `TypeError`:
everything except JSON lists and objects (`None` is screened off by the
`is not None` guard before `int` is reached). -/
def safeAnswerValue : JValue → Bool
  | .jarr _ => false
  | .jobj _ => false
  | _ => true

instance {ε α : Type} [DecidableEq ε] [DecidableEq α] :
    DecidableEq (Except ε α) := fun a b =>
  match a, b with
  | .ok x, .ok y =>
    if h : x = y then .isTrue (by rw [h])
    else .isFalse (fun hh => h (by injection hh))
  | .ok _, .error _ => .isFalse (fun hh => by injection hh)
  | .error _, .ok _ => .isFalse (fun hh => by injection hh)
  | .error x, .error y =>
    if h : x = y then .isTrue (by rw [h])
    else .isFalse (fun hh => h (by injection hh))

/-- Mutable state of `calculate_score`'s `for question in questions` loop. -/
structure LoopState where
  earned_points : Nat
  skill_correct : List (String × Nat)
  skill_total : List (String × Nat)
deriving Repr, DecidableEq

/-- The `for question in questions` loop of `calculate_score`: per skill
point totals, per skill correct points, and earned points. -/
def scoreLoop (answers : List (String × JValue)) :
    List Question → LoopState → Except Unit LoopState
  | [], st => .ok st
  | q :: rest, st =>
    let skill := skillOf q
    let st1 : LoopState :=
      { st with skill_total :=
          dictSet st.skill_total skill (dictGetD st.skill_total skill 0 + q.points) }
    match checkAnswer answers q with
    | .error e => .error e
    | .ok true =>
      scoreLoop answers rest
        { st1 with
          earned_points := st1.earned_points + q.points,
          skill_correct :=
            dictSet st1.skill_correct skill (dictGetD st1.skill_correct skill 0 + q.points) }
    | .ok false => scoreLoop answers rest st1

/-- What `calculate_score` computes and stores on the attempt. -/
structure ScoreOutcome where
  total_points : Nat
  earned_points : Nat
  score : Rat
  passed : Bool
  skill_scores : List (String × Rat)
deriving Repr, DecidableEq

/-- `total_points = sum(q.points for q in questions)`. -/
def totalPointsOf (questions : List Question) : Nat :=
  (questions.map (fun q => q.points)).sum

/-- `(earned_points / total_points * 100) if total_points > 0 else 0`. -/
def overallScore (earned total : Nat) : Rat :=
  if 0 < total then (earned : Rat) / (total : Rat) * 100 else 0

/-- The `for skill, total in skill_total.items()` loop of
`calculate_score`: writes
`round(correct / total * 100, 2) if total > 0 else 0` into the attempt's
(possibly pre-populated) `skill_scores` dict, where
`correct = skill_correct.get(skill, 0)`. -/
def buildSkillScores (st : LoopState)
    (init_skill_scores : List (String × Rat)) : List (String × Rat) :=
  st.skill_total.foldl
    (fun acc p =>
      dictSet acc p.1
        (if 0 < p.2 then
          pyRound2 (((dictGetD st.skill_correct p.1 0 : Nat) : Rat) / (p.2 : Rat) * 100)
        else 0))
    init_skill_scores

/-- `AssessmentAttempt.calculate_score`: total points, the answer loop, the
guarded overall score, the pass flag, and the per-skill percentages.
`Except.error ()` models an uncaught `TypeError` escaping the method. -/
def calculate_score (questions : List Question)
    (answers : List (String × JValue)) (passing_score : Nat)
    (init_skill_scores : List (String × Rat)) : Except Unit ScoreOutcome :=
  match scoreLoop answers questions ⟨0, [], []⟩ with
  | .error e => .error e
  | .ok st =>
    let score := overallScore st.earned_points (totalPointsOf questions)
    let passed := decide ((passing_score : Rat) ≤ score)
    .ok ⟨totalPointsOf questions, st.earned_points, score, passed,
      buildSkillScores st init_skill_scores⟩

/-- Whether `calculate_score`'s answer check scores question `q` as
correct (`false` both for an incorrect selection and for the policy
cases missing / unparseable / out-of-range). -/
def answeredCorrectly (answers : List (String × JValue)) (q : Question) : Bool :=
  match checkAnswer answers q with
  | Except.ok b => b
  | Except.error _ => false

/-!
Skill-gap aggregation from `AssessmentViewSet.submit` (views.py): for every
completed attempt and every `(skill, score)` in its `skill_scores`, the gap
`100 - score` is appended to `skill_gaps[skill]` (a fresh list on first
sight); the final `top_skill_gaps` is the list of
`{skill, gapPercentage: round(sum(gaps)/len(gaps), 2)}` sorted descending by
`sum(gaps)/len(gaps)` (Python's `sorted` with `reverse=True` is stable) and
truncated to 5 entries.
-/

/-- `skill_gaps.setdefault(skill, []).append(g)`: appends `g` to the list
stored under `k`, creating `[g]` under a fresh key appended at the end. -/
def appendGap : List (String × List Rat) → String → Rat → List (String × List Rat)
  | [], k, g => [(k, [g])]
  | (k0, gs) :: rest, k, g =>
    if k0 == k then (k0, gs ++ [g]) :: rest else (k0, gs) :: appendGap rest k g

/-- The double loop `for att in attempts: for skill, score in
att.skill_scores.items(): skill_gaps[skill].append(100 - score)`. -/
def buildSkillGaps (attempts : List (List (String × Rat))) :
    List (String × List Rat) :=
  attempts.foldl
    (fun acc att => att.foldl (fun acc2 p => appendGap acc2 p.1 (100 - p.2)) acc)
    []

/-- `sum(gaps) / len(gaps)`. -/
def listMean (gs : List Rat) : Rat := gs.sum / (gs.length : Rat)

/-- Stable insertion into a list already sorted by strictly descending
position of `listMean`: the element passes every entry with a strictly
larger mean and stops in front of the first entry whose mean is `≤` its
own, exactly the placement a stable descending sort gives. -/
def insertByGapDesc (x : String × List Rat) :
    List (String × List Rat) → List (String × List Rat)
  | [] => [x]
  | y :: ys =>
    if listMean x.2 < listMean y.2 then y :: insertByGapDesc x ys
    else x :: y :: ys

/-- Stable sort by descending `listMean`, the observable behaviour of
`sorted(skill_gaps.items(), key=lambda x: sum(x[1]) / len(x[1]),
reverse=True)` (Python's sort is stable and `reverse=True` keeps ties in
original order). -/
def sortByGapDesc : List (String × List Rat) → List (String × List Rat)
  | [] => []
  | x :: xs => insertByGapDesc x (sortByGapDesc xs)

/-- `assessment.top_skill_gaps` as computed in `AssessmentViewSet.submit`:
sort the accumulated gap lists, keep the top 5, and emit
`(skill, round(sum(gaps)/len(gaps), 2))` pairs. -/
def top_skill_gaps (attempts : List (List (String × Rat))) :
    List (String × Rat) :=
  ((sortByGapDesc (buildSkillGaps attempts)).take 5).map
    (fun p => (p.1, pyRound2 (listMean p.2)))

/-- Spec-side: the distinct skill labels in the order they are first
observed while iterating the attempts (and, within an attempt, its
`skill_scores` entries). -/
def observedSkills (attempts : List (List (String × Rat))) : List String :=
  (attempts.flatten.map Prod.fst).foldl
    (fun ks k => if k ∈ ks then ks else ks ++ [k]) []

/-- Spec-side: the gaps `100 - skill_score` contributed for skill `s`, in
attempt order, over the attempts reporting `s`. -/
def gapListFor (attempts : List (List (String × Rat))) (s : String) :
    List Rat :=
  (attempts.flatten.filter (fun p => p.1 == s)).map (fun p => 100 - p.2)

/-- Spec-side: one `(skill, gap list)` entry per observed skill, in
first-observed order. -/
def observedEntries (attempts : List (List (String × Rat))) :
    List (String × List Rat) :=
  (observedSkills attempts).map (fun s => (s, gapListFor attempts s))

/-- `UserGamification.calculate_level`:
`max(1, int(math.sqrt(self.total_xp / 100)) + 1)`.  For a natural
`total_xp`, `int(math.sqrt(total_xp / 100))` is the floor of the real
square root of `total_xp / 100`, i.e. the greatest `n` with
`100 * n^2 ≤ total_xp`, which equals `Nat.sqrt (total_xp / 100)` under
floor division (any `n` with `n^2 ≤ total_xp / 100` exactly satisfies
`n^2 ≤ ⌊total_xp / 100⌋` because `n^2` is an integer). -/
def calculate_level (total_xp : Nat) : Nat :=
  max 1 (Nat.sqrt (total_xp / 100) + 1)

section DictLemmas

variable {α β : Type}

theorem keys_append (d e : List (String × α)) :
    keys (d ++ e) = keys d ++ keys e := by
  induction d with
  | nil => simp [keys]
  | cons p rest ih =>
    obtain ⟨k0, v0⟩ := p
    simp [keys, ih]

theorem mem_keys_of_mem {d : List (String × α)} {s : String} {v : α}
    (h : (s, v) ∈ d) : s ∈ keys d := by
  induction d with
  | nil => simp at h
  | cons p rest ih =>
    obtain ⟨k0, v0⟩ := p
    rcases List.mem_cons.mp h with heq | htail
    · injection heq with h1 h2
      subst h1
      simp [keys]
    · simp [keys, ih htail]

theorem dictGet_dictSet_self (d : List (String × α)) (k : String) (v : α) :
    dictGet (dictSet d k v) k = some v := by
  induction d with
  | nil => simp [dictGet, dictSet]
  | cons p rest ih =>
    obtain ⟨k0, v0⟩ := p
    by_cases h : k0 = k
    · simp [dictSet, dictGet, h]
    · simp [dictSet, dictGet, h, ih]

theorem dictGet_dictSet_ne (d : List (String × α)) {k k' : String} (v : α)
    (h : k' ≠ k) : dictGet (dictSet d k v) k' = dictGet d k' := by
  have h2 : ¬ k = k' := fun hh => h hh.symm
  induction d with
  | nil => simp [dictGet, dictSet, h2]
  | cons p rest ih =>
    obtain ⟨k0, v0⟩ := p
    by_cases h0 : k0 = k
    · subst h0
      simp [dictSet, dictGet, h2]
    · simp [dictSet, dictGet, h0, ih]

theorem mem_keys_iff_dictGet (d : List (String × α)) (k : String) :
    k ∈ keys d ↔ ∃ v, dictGet d k = some v := by
  induction d with
  | nil => simp [keys, dictGet]
  | cons p rest ih =>
    obtain ⟨k0, v0⟩ := p
    by_cases h : k0 = k
    · subst h
      simp [keys, dictGet]
    · have h2 : ¬ k = k0 := fun hh => h hh.symm
      simp [keys, dictGet, h, h2, ih]

theorem dictSet_of_not_mem (d : List (String × α)) {k : String} (v : α)
    (h : k ∉ keys d) : dictSet d k v = d ++ [(k, v)] := by
  induction d with
  | nil => simp [dictSet]
  | cons p rest ih =>
    obtain ⟨k0, v0⟩ := p
    simp only [keys, List.mem_cons] at h
    push_neg at h
    have h0 : ¬ k0 = k := fun hh => h.1 hh.symm
    simp [dictSet, h0, ih h.2]

theorem keys_dictSet_of_mem (d : List (String × α)) {k : String} (v : α)
    (h : k ∈ keys d) : keys (dictSet d k v) = keys d := by
  induction d with
  | nil => simp [keys] at h
  | cons p rest ih =>
    obtain ⟨k0, v0⟩ := p
    by_cases h0 : k0 = k
    · simp [dictSet, keys, h0]
    · simp only [keys, List.mem_cons] at h
      rcases h with hk | hk
    
      · exact absurd hk.symm h0
      · simp [dictSet, keys, h0, ih hk]

theorem mem_keys_dictSet (d : List (String × α)) (k s : String) (v : α) :
    s ∈ keys (dictSet d k v) ↔ s ∈ keys d ∨ s = k := by
  by_cases h : k ∈ keys d
  · rw [keys_dictSet_of_mem d v h]
    constructor
    · exact Or.inl
    · rintro (hs | rfl)
      · exact hs
      · exact h
  · rw [dictSet_of_not_mem d v h, keys_append]
    simp [keys]

theorem nodup_keys_dictSet (d : List (String × α)) (k : String) (v : α)
    (h : (keys d).Nodup) : (keys (dictSet d k v)).Nodup := by
  by_cases hm : k ∈ keys d
  · rwa [keys_dictSet_of_mem d v hm]
  · rw [dictSet_of_not_mem d v hm, keys_append]
    simp only [keys, List.nodup_append, List.nodup_cons, List.nodup_nil]
    refine ⟨h, by simp, ?_⟩
    intro x hx
    simp only [List.mem_singleton]
    intro hxk
    exact hm (hxk ▸ hx)

theorem dictGet_of_mem_nodup {d : List (String × α)} {s : String} {v : α}
    (h : (keys d).Nodup) (hm : (s, v) ∈ d) : dictGet d s = some v := by
  induction d with
  | nil => simp at hm
  | cons p rest ih =>
    obtain ⟨k0, v0⟩ := p
    simp only [keys, List.nodup_cons] at h
    rcases List.mem_cons.mp hm with heq | htail
    · injection heq with h1 h2
      subst h1
      subst h2
      simp [dictGet]
    · have h0 : ¬ k0 = s := by
        intro hh
        exact h.1 (hh ▸ mem_keys_of_mem htail)
      simp [dictGet, h0, ih h.2 htail]

theorem foldl_dictSet_eq_append_map (f : String × β → α) :
    ∀ (l : List (String × β)) (init : List (String × α)),
      (keys l).Nodup → (∀ k ∈ keys l, k ∉ keys init) →
      l.foldl (fun acc p => dictSet acc p.1 (f p)) init =
        init ++ l.map (fun p => (p.1, f p)) := by
  intro l
  induction l with
  | nil => intro init _ _; simp
  | cons p rest ih =>
    intro init hnd hdisj
    obtain ⟨k0, b0⟩ := p
    simp only [keys, List.nodup_cons] at hnd
    have hp : k0 ∉ keys init := hdisj k0 (by simp [keys])
    have hstep : dictSet init k0 (f (k0, b0)) = init ++ [(k0, f (k0, b0))] :=
      dictSet_of_not_mem init _ hp
    have hdisjr : ∀ k ∈ keys rest, k ∉ keys (init ++ [(k0, f (k0, b0))]) := by
      intro k hk
      rw [keys_append]
      simp only [keys, List.mem_append, List.mem_cons, List.not_mem_nil, or_false]
      push_neg
      constructor
      · exact hdisj k (by simp [keys, hk])
      · intro hkk
        exact hnd.1 (hkk ▸ hk)
    calc ((k0, b0) :: rest).foldl (fun acc q => dictSet acc q.1 (f q)) init
        = rest.foldl (fun acc q => dictSet acc q.1 (f q)) (init ++ [(k0, f (k0, b0))]) := by
          simp [List.foldl_cons, hstep]
      _ = (init ++ [(k0, f (k0, b0))]) ++ rest.map (fun q => (q.1, f q)) := ih _ hnd.2 hdisjr
      _ = init ++ ((k0, b0) :: rest).map (fun q => (q.1, f q)) := by simp

end DictLemmas

section ScoreLoopLemmas

theorem answeredCorrectly_true_iff (answers : List (String × JValue)) (q : Question) :
    answeredCorrectly answers q = true ↔ checkAnswer answers q = .ok true := by
  unfold answeredCorrectly
  cases h : checkAnswer answers q with
  | error e => simp
  | ok b => cases b <;> simp

theorem scoreLoop_earned (answers : List (String × JValue)) :
    ∀ (qs : List Question) (st st' : LoopState),
      scoreLoop answers qs st = .ok st' →
      st'.earned_points = st.earned_points +
        (qs.map (fun q => if answeredCorrectly answers q then q.points else 0)).sum := by
  intro qs
  induction qs with
  | nil =>
    intro st st' h
    simp only [scoreLoop, Except.ok.injEq] at h
    simp [h]
  | cons q rest ih =>
    intro st st' h
    simp only [scoreLoop] at h
    cases hc : checkAnswer answers q with
    | error e => rw [hc] at h; exact absurd h (by simp)
    | ok b =>
      rw [hc] at h
      have hb := (answeredCorrectly_true_iff answers q)
      cases b with
      | true =>
        have := ih _ _ h
        have hac : answeredCorrectly answers q = true := hb.mpr hc
        simp only [this, hac, List.map_cons, List.sum_cons, if_true]
        omega
      | false =>
        have := ih _ _ h
        have hac : answeredCorrectly answers q = false := by
          cases hx : answeredCorrectly answers q
          · rfl
          · exact absurd (hb.mp hx) (by rw [hc]; simp)
        simp only [this, hac, List.map_cons, List.sum_cons]
        simp

theorem scoreLoop_ok_of_no_typeError (answers : List (String × JValue)) :
    ∀ (qs : List Question) (st : LoopState),
      (∀ q ∈ qs, checkAnswer answers q ≠ .error ()) →
      ∃ st', scoreLoop answers qs st = .ok st' := by
  intro qs
  induction qs with
  | nil => intro st _; exact ⟨st, rfl⟩
  | cons q rest ih =>
    intro st hsafe
    simp only [scoreLoop]
    cases hc : checkAnswer answers q with
    | error e =>
      cases e
      exact absurd hc (hsafe q (by simp))
    | ok b =>
      cases b with
      | true => exact ih _ (fun q' hq' => hsafe q' (by simp [hq']))
      | false => exact ih _ (fun q' hq' => hsafe q' (by simp [hq']))

theorem scoreLoop_skill_total_keys (answers : List (String × JValue)) :
    ∀ (qs : List Question) (st st' : LoopState),
      scoreLoop answers qs st = .ok st' →
      ∀ s, s ∈ keys st'.skill_total ↔
        s ∈ keys st.skill_total ∨ ∃ q ∈ qs, skillOf q = s := by
  intro qs
  induction qs with
  | nil =>
    intro st st' h s
    simp only [scoreLoop, Except.ok.injEq] at h
    simp [h]
  | cons q rest ih =>
    intro st st' h s
    simp only [scoreLoop] at h
    cases hc : checkAnswer answers q with
    | error e => rw [hc] at h; exact absurd h (by simp)
    | ok b =>
      rw [hc] at h
      have hmem :
          ∀ st1 : LoopState,
            st1.skill_total =
              dictSet st.skill_total (skillOf q)
                (dictGetD st.skill_total (skillOf q) 0 + q.points) →
            (s ∈ keys st1.skill_total ↔ s ∈ keys st.skill_total ∨ s = skillOf q) := by
        intro st1 hst1
        rw [hst1]
        exact mem_keys_dictSet _ _ _ _
      cases b with
      | true =>
        rw [ih _ _ h s, hmem _ rfl]
        constructor
        · rintro ((hs | hs) | ⟨q', hq', hsk⟩)
          · exact Or.inl hs
          · exact Or.inr ⟨q, by simp, hs.symm⟩
          · exact Or.inr ⟨q', by simp [hq'], hsk⟩
        · rintro (hs | ⟨q', hq', hsk⟩)
          · exact Or.inl (Or.inl hs)
          · rcases List.mem_cons.mp hq' with rfl | hq'
            · exact Or.inl (Or.inr hsk.symm)
            · exact Or.inr ⟨q', hq', hsk⟩
      | false =>
        rw [ih _ _ h s, hmem _ rfl]
        constructor
        · rintro ((hs | hs) | ⟨q', hq', hsk⟩)
          · exact Or.inl hs
          · exact Or.inr ⟨q, by simp, hs.symm⟩
          · exact Or.inr ⟨q', by simp [hq'], hsk⟩
        · rintro (hs | ⟨q', hq', hsk⟩)
          · exact Or.inl (Or.inl hs)
          · rcases List.mem_cons.mp hq' with rfl | hq'
            · exact Or.inl (Or.inr hsk.symm)
            · exact Or.inr ⟨q', hq', hsk⟩

theorem scoreLoop_skill_total_nodup (answers : List (String × JValue)) :
    ∀ (qs : List Question) (st st' : LoopState),
      scoreLoop answers qs st = .ok st' →
      (keys st.skill_total).Nodup → (keys st'.skill_total).Nodup := by
  intro qs
  induction qs with
  | nil =>
    intro st st' h hnd
    simp only [scoreLoop, Except.ok.injEq] at h
    rwa [← h]
  | cons q rest ih =>
    intro st st' h hnd
    simp only [scoreLoop] at h
    cases hc : checkAnswer answers q with
    | error e => rw [hc] at h; exact absurd h (by simp)
    | ok b =>
      rw [hc] at h
      have hnd1 :
          (keys (dictSet st.skill_total (skillOf q)
            (dictGetD st.skill_total (skillOf q) 0 + q.points))).Nodup :=
        nodup_keys_dictSet _ _ _ hnd
      cases b with
      | true => exact ih _ _ h hnd1
      | false => exact ih _ _ h hnd1

theorem calculate_score_ok_iff (questions : List Question)
    (answers : List (String × JValue)) (passing_score : Nat)
    (init_skill_scores : List (String × Rat)) (st : ScoreOutcome) :
    calculate_score questions answers passing_score init_skill_scores = .ok st ↔
    ∃ lst, scoreLoop answers questions ⟨0, [], []⟩ = .ok lst ∧
      st = { total_points := totalPointsOf questions
             earned_points := lst.earned_points
             score := overallScore lst.earned_points (totalPointsOf questions)
             passed :=
               decide ((passing_score : Rat) ≤
                 overallScore lst.earned_points (totalPointsOf questions))
             skill_scores := buildSkillScores lst init_skill_scores } := by
  unfold calculate_score
  cases hsl : scoreLoop answers questions ⟨0, [], []⟩ with
  | error e => simp
  | ok lst =>
    simp only [Except.ok.injEq]
    constructor
    · intro h
      exact ⟨lst, rfl, h.symm⟩
    · rintro ⟨lst2, hl2, hst⟩
      cases hl2
      exact hst.symm

end ScoreLoopLemmas

section CheckAnswerLemmas

theorem dictGet_mem {α : Type} {d : List (String × α)} {k : String} {v : α}
    (h : dictGet d k = some v) : (k, v) ∈ d := by
  induction d with
  | nil => simp [dictGet] at h
  | cons p rest ih =>
    obtain ⟨k0, v0⟩ := p
    by_cases h0 : k0 = k
    · subst h0
      simp [dictGet] at h
      simp [h]
    · simp [dictGet, h0] at h
      simp [ih h]

theorem keys_map_pair {α β : Type} (f : String × α → β) (l : List (String × α)) :
    keys (l.map (fun p => (p.1, f p))) = keys l := by
  induction l with
  | nil => rfl
  | cons p rest ih =>
    obtain ⟨k, v⟩ := p
    simp [keys, ih]

theorem buildSkillScores_eq_map (lst : LoopState)
    (hnd : (keys lst.skill_total).Nodup) :
    buildSkillScores lst [] =
      lst.skill_total.map (fun p => (p.1,
        if 0 < p.2 then
          pyRound2 (((dictGetD lst.skill_correct p.1 0 : Nat) : Rat) / (p.2 : Rat) * 100)
        else 0)) := by
  unfold buildSkillScores
  have h := foldl_dictSet_eq_append_map
    (fun p : String × Nat =>
      if 0 < p.2 then
        pyRound2 (((dictGetD lst.skill_correct p.1 0 : Nat) : Rat) / (p.2 : Rat) * 100)
      else 0)
    lst.skill_total [] hnd (by intro k _; simp [keys])
  simpa using h

theorem eq_jnull_of_isJNull {v : JValue} (h : isJNull v = true) :
    v = JValue.jnull := by
  cases v <;> simp [isJNull] at h ⊢

theorem isJNull_false_of_pyIntOf_ok {v : JValue} {n : Int}
    (h : pyIntOf v = .ok n) : isJNull v = false := by
  cases v <;> simp [isJNull, pyIntOf] at h ⊢

theorem isJNull_false_of_pyIntOf_valueError {v : JValue}
    (h : pyIntOf v = .valueError) : isJNull v = false := by
  cases v <;> simp [isJNull, pyIntOf] at h ⊢

theorem pyIntOf_ne_typeError_of_safe {v : JValue}
    (hs : safeAnswerValue v = true) (hn : isJNull v = false) :
    pyIntOf v ≠ .typeError := by
  cases v with
  | jnull => simp [isJNull] at hn
  | jarr xs => simp [safeAnswerValue] at hs
  | jobj xs => simp [safeAnswerValue] at hs
  | jstr s =>
    cases hps : pyStrToInt s <;> simp [pyIntOf, hps]
  | jbool b => simp [pyIntOf]
  | jint n => simp [pyIntOf]
  | jfloat x => simp [pyIntOf]

theorem checkAnswer_missing (answers : List (String × JValue)) (q : Question)
    (hv : dictGet answers (toString q.id) = none) :
    checkAnswer answers q = .ok false := by
  unfold checkAnswer
  rw [hv]

theorem checkAnswer_null (answers : List (String × JValue)) (q : Question)
    (hv : dictGet answers (toString q.id) = some JValue.jnull) :
    checkAnswer answers q = .ok false := by
  unfold checkAnswer
  rw [hv]
  simp [isJNull]

theorem checkAnswer_some (answers : List (String × JValue)) (q : Question)
    {v : JValue} (hv : dictGet answers (toString q.id) = some v)
    (hn : isJNull v = false) :
    checkAnswer answers q =
      match pyIntOf v with
      | .typeError => .error ()
      | .valueError => .ok false
      | .ok n =>
        match pyIndex q.options n with
        | none => .ok false
        | some opt => .ok opt.isCorrect := by
  unfold checkAnswer
  rw [hv]
  simp [hn]

theorem checkAnswer_valueError (answers : List (String × JValue)) (q : Question)
    {v : JValue} (hv : dictGet answers (toString q.id) = some v)
    (hpi : pyIntOf v = .valueError) :
    checkAnswer answers q = .ok false := by
  rw [checkAnswer_some answers q hv (isJNull_false_of_pyIntOf_valueError hpi), hpi]

theorem checkAnswer_of_index (answers : List (String × JValue)) (q : Question)
    {v : JValue} {n : Int} (hv : dictGet answers (toString q.id) = some v)
    (hpi : pyIntOf v = .ok n) :
    checkAnswer answers q =
      match pyIndex q.options n with
      | none => .ok false
      | some opt => .ok opt.isCorrect := by
  rw [checkAnswer_some answers q hv (isJNull_false_of_pyIntOf_ok hpi), hpi]

theorem checkAnswer_indexError (answers : List (String × JValue)) (q : Question)
    {v : JValue} {n : Int} (hv : dictGet answers (toString q.id) = some v)
    (hpi : pyIntOf v = .ok n) (hx : pyIndex q.options n = none) :
    checkAnswer answers q = .ok false := by
  rw [checkAnswer_of_index answers q hv hpi, hx]

theorem checkAnswer_selected (answers : List (String × JValue)) (q : Question)
    {v : JValue} {n : Int} {opt : QOption}
    (hv : dictGet answers (toString q.id) = some v)
    (hpi : pyIntOf v = .ok n) (hx : pyIndex q.options n = some opt) :
    checkAnswer answers q = .ok opt.isCorrect := by
  rw [checkAnswer_of_index answers q hv hpi, hx]

theorem checkAnswer_ok_true_iff (answers : List (String × JValue)) (q : Question) :
    checkAnswer answers q = .ok true ↔
    ∃ v n opt, dictGet answers (toString q.id) = some v ∧
      pyIntOf v = PyIntResult.ok n ∧ pyIndex q.options n = some opt ∧
      opt.isCorrect = true := by
  constructor
  · intro h
    cases hv : dictGet answers (toString q.id) with
    | none => rw [checkAnswer_missing answers q hv] at h; simp at h
    | some v =>
      cases hn : isJNull v with
      | true =>
        rw [eq_jnull_of_isJNull hn] at hv
        rw [checkAnswer_null answers q hv] at h
        simp at h
      | false =>
        rw [checkAnswer_some answers q hv hn] at h
        cases hpi : pyIntOf v with
        | typeError => rw [hpi] at h; simp at h
        | valueError => rw [hpi] at h; simp at h
        | ok n =>
          rw [hpi] at h
          dsimp only at h
          cases hx : pyIndex q.options n with
          | none => rw [hx] at h; simp at h
          | some opt =>
            rw [hx] at h
            simp only [Except.ok.injEq] at h
            exact ⟨v, n, opt, rfl, hpi, hx, h⟩
  · rintro ⟨v, n, opt, hv, hpi, hx, hflag⟩
    rw [checkAnswer_selected answers q hv hpi hx, hflag]

theorem checkAnswer_ne_error_of_safe (answers : List (String × JValue))
    (q : Question) (hall : ∀ p ∈ answers, safeAnswerValue p.2 = true) :
    checkAnswer answers q ≠ .error () := by
  cases hv : dictGet answers (toString q.id) with
  | none => rw [checkAnswer_missing answers q hv]; simp
  | some v =>
    cases hn : isJNull v with
    | true =>
      rw [eq_jnull_of_isJNull hn] at hv
      rw [checkAnswer_null answers q hv]
      simp
    | false =>
      rw [checkAnswer_some answers q hv hn]
      have hsafe : safeAnswerValue v = true :=
        hall (toString q.id, v) (dictGet_mem hv)
      have hne := pyIntOf_ne_typeError_of_safe hsafe hn
      cases hpi : pyIntOf v with
      | typeError => exact absurd hpi hne
      | valueError => simp
      | ok n =>
        cases hx : pyIndex q.options n with
        | none => simp [hx]
        | some opt => simp [hx]

theorem pyIndex_neg {α : Type} (xs : List α) (k : Nat) (h1 : 1 ≤ k)
    (h2 : k ≤ xs.length) :
    pyIndex xs (-(k : Int)) = xs.get? (xs.length - k) := by
  unfold pyIndex
  have hlt : (-(k : Int)) < 0 := by omega
  have h0 : (0 : Int) ≤ (xs.length : Int) + -(k : Int) := by omega
  simp only [hlt, if_true, h0]
  have ht : ((xs.length : Int) + -(k : Int)).toNat = xs.length - k := by omega
  rw [ht]

end CheckAnswerLemmas

section SkillGapLemmas

theorem appendGap_eq_dictSet (d : List (String × List Rat)) (k : String)
    (g : Rat) : appendGap d k g = dictSet d k (dictGetD d k [] ++ [g]) := by
  induction d with
  | nil => simp [appendGap, dictSet, dictGetD, dictGet]
  | cons p rest ih =>
    obtain ⟨k0, gs⟩ := p
    by_cases h : k0 = k
    · simp [appendGap, dictSet, dictGetD, dictGet, h]
    · simp [appendGap, dictSet, dictGetD, dictGet, h, ih]

theorem keys_appendGap (d : List (String × List Rat)) (k : String) (g : Rat) :
    keys (appendGap d k g) =
      if k ∈ keys d then keys d else keys d ++ [k] := by
  rw [appendGap_eq_dictSet]
  by_cases h : k ∈ keys d
  · rw [keys_dictSet_of_mem d _ h, if_pos h]
  · rw [dictSet_of_not_mem d _ h, keys_append, if_neg h]
    simp [keys]

theorem nodup_keys_appendGap (d : List (String × List Rat)) (k : String)
    (g : Rat) (h : (keys d).Nodup) : (keys (appendGap d k g)).Nodup := by
  rw [appendGap_eq_dictSet]
  exact nodup_keys_dictSet d k _ h

theorem dictGet_appendGap_self (d : List (String × List Rat)) (k : String)
    (g : Rat) : dictGet (appendGap d k g) k = some (dictGetD d k [] ++ [g]) := by
  rw [appendGap_eq_dictSet]
  exact dictGet_dictSet_self d k _

theorem dictGet_appendGap_ne (d : List (String × List Rat)) {k k' : String}
    (g : Rat) (h : k' ≠ k) :
    dictGet (appendGap d k g) k' = dictGet d k' := by
  rw [appendGap_eq_dictSet]
  exact dictGet_dictSet_ne d _ h

theorem foldl_flatten {α β : Type} (f : β → α → β) (b : β) (L : List (List α)) :
    L.flatten.foldl f b = L.foldl (fun acc l => l.foldl f acc) b := by
  induction L generalizing b with
  | nil => rfl
  | cons x xs ih => simp [List.foldl_append, ih]

theorem gapFold_get_some :
    ∀ (ps : List (String × Rat)) (acc : List (String × List Rat))
      (s : String) (gs : List Rat),
      dictGet acc s = some gs →
      dictGet (ps.foldl (fun a p => appendGap a p.1 (100 - p.2)) acc) s =
        some (gs ++ (ps.filter (fun p => p.1 == s)).map (fun p => 100 - p.2)) := by
  intro ps
  induction ps with
  | nil => intro acc s gs h; simpa using h
  | cons p rest ih =>
    intro acc s gs h
    by_cases hps : p.1 = s
    · subst hps
      have hacc : dictGet (appendGap acc p.1 (100 - p.2)) p.1 =
          some (gs ++ [100 - p.2]) := by
        rw [dictGet_appendGap_self]
        simp [dictGetD, h]
      have hrest := ih (appendGap acc p.1 (100 - p.2)) p.1 (gs ++ [100 - p.2]) hacc
      simp only [List.foldl_cons]
      rw [hrest]
      simp [List.filter_cons]
    · have hacc : dictGet (appendGap acc p.1 (100 - p.2)) s = some gs := by
        rw [dictGet_appendGap_ne acc (100 - p.2) (Ne.symm hps)]
        exact h
      have hrest := ih (appendGap acc p.1 (100 - p.2)) s gs hacc
      simp only [List.foldl_cons]
      rw [hrest]
      simp [List.filter_cons, hps]

theorem gapFold_get_none :
    ∀ (ps : List (String × Rat)) (acc : List (String × List Rat)) (s : String),
      dictGet acc s = none →
      dictGet (ps.foldl (fun a p => appendGap a p.1 (100 - p.2)) acc) s =
        if s ∈ ps.map Prod.fst then
          some ((ps.filter (fun p => p.1 == s)).map (fun p => 100 - p.2))
        else none := by
  intro ps
  induction ps with
  | nil => intro acc s h; simpa using h
  | cons p rest ih =>
    intro acc s h
    by_cases hps : p.1 = s
    · subst hps
      have hacc : dictGet (appendGap acc p.1 (100 - p.2)) p.1 =
          some [100 - p.2] := by
        rw [dictGet_appendGap_self]
        simp [dictGetD, h]
      have hrest := gapFold_get_some rest (appendGap acc p.1 (100 - p.2)) p.1
        [100 - p.2] hacc
      simp only [List.foldl_cons]
      rw [hrest]
      simp [List.filter_cons]
    · have hacc : dictGet (appendGap acc p.1 (100 - p.2)) s = none := by
        rw [dictGet_appendGap_ne acc (100 - p.2) (Ne.symm hps)]
        exact h
      have hrest := ih (appendGap acc p.1 (100 - p.2)) s hacc
      simp only [List.foldl_cons]
      rw [hrest]
      have hiff : (s ∈ p.1 :: List.map Prod.fst rest) ↔
          (s ∈ List.map Prod.fst rest) := by
        simp [Ne.symm hps]
      simp only [List.filter_cons, List.map_cons]
      rw [if_congr hiff rfl rfl]
      simp [hps]

theorem gapFold_keys :
    ∀ (ps : List (String × Rat)) (acc : List (String × List Rat)),
      keys (ps.foldl (fun a p => appendGap a p.1 (100 - p.2)) acc) =
        (ps.map Prod.fst).foldl
          (fun ks k => if k ∈ ks then ks else ks ++ [k]) (keys acc) := by
  intro ps
  induction ps with
  | nil => intro acc; rfl
  | cons p rest ih =>
    intro acc
    simp only [List.foldl_cons, List.map_cons]
    rw [ih, keys_appendGap]

theorem gapFold_nodup :
    ∀ (ps : List (String × Rat)) (acc : List (String × List Rat)),
      (keys acc).Nodup →
      (keys (ps.foldl (fun a p => appendGap a p.1 (100 - p.2)) acc)).Nodup := by
  intro ps
  induction ps with
  | nil => intro acc h; exact h
  | cons p rest ih =>
    intro acc h
    simp only [List.foldl_cons]
    exact ih _ (nodup_keys_appendGap acc p.1 (100 - p.2) h)

theorem eq_keys_map_of_nodup {α : Type} (dflt : α) :
    ∀ (d : List (String × α)), (keys d).Nodup →
      d = (keys d).map (fun s => (s, dictGetD d s dflt)) := by
  intro d
  induction d with
  | nil => intro _; rfl
  | cons p rest ih =>
    intro h
    obtain ⟨k0, v0⟩ := p
    simp only [keys, List.nodup_cons] at h
    simp only [keys, List.map_cons]
    have hmc : (keys rest).map (fun s => (s, dictGetD ((k0, v0) :: rest) s dflt)) =
        (keys rest).map (fun s => (s, dictGetD rest s dflt)) := by
      apply List.map_congr_left
      intro s hs
      have hne : ¬ k0 = s := by
        intro hh
        exact h.1 (hh ▸ hs)
      simp [dictGetD, dictGet, hne]
    rw [List.cons.injEq]
    constructor
    · simp [dictGetD, dictGet]
    · rw [hmc, ← ih h.2]

theorem buildSkillGaps_eq_observedEntries
    (attempts : List (List (String × Rat))) :
    buildSkillGaps attempts = observedEntries attempts := by
  have hfold : buildSkillGaps attempts =
      attempts.flatten.foldl (fun a p => appendGap a p.1 (100 - p.2)) [] := by
    unfold buildSkillGaps
    rw [foldl_flatten]
  have hnd : (keys (buildSkillGaps attempts)).Nodup := by
    rw [hfold]
    exact gapFold_nodup attempts.flatten [] (by simp [keys])
  have hkeys : keys (buildSkillGaps attempts) = observedSkills attempts := by
    rw [hfold]
    unfold observedSkills
    rw [gapFold_keys]
    rfl
  have hrec := eq_keys_map_of_nodup ([] : List Rat) (buildSkillGaps attempts) hnd
  rw [hrec, hkeys]
  unfold observedEntries
  apply List.map_congr_left
  intro s hs
  have hs2 : s ∈ keys (buildSkillGaps attempts) := by rw [hkeys]; exact hs
  obtain ⟨gs, hgs⟩ := (mem_keys_iff_dictGet _ s).mp hs2
  have hnone : dictGet ([] : List (String × List Rat)) s = none := rfl
  have hchar := gapFold_get_none attempts.flatten [] s hnone
  rw [← hfold] at hchar
  by_cases hmem : s ∈ attempts.flatten.map Prod.fst
  · rw [if_pos hmem] at hchar
    have : dictGetD (buildSkillGaps attempts) s [] =
        (attempts.flatten.filter (fun p => p.1 == s)).map (fun p => 100 - p.2) := by
      simp [dictGetD, hchar]
    rw [this]
    rfl
  · rw [if_neg hmem] at hchar
    rw [hchar] at hgs
    exact absurd hgs (by simp)

theorem insertByGapDesc_perm (x : String × List Rat)
    (l : List (String × List Rat)) :
    List.Perm (insertByGapDesc x l) (x :: l) := by
  induction l with
  | nil => simp [insertByGapDesc]
  | cons y ys ih =>
    unfold insertByGapDesc
    by_cases hc : listMean x.2 < listMean y.2
    · rw [if_pos hc]
      exact (ih.cons y).trans (List.Perm.swap x y ys)
    · rw [if_neg hc]

theorem sortByGapDesc_perm (l : List (String × List Rat)) :
    List.Perm (sortByGapDesc l) l := by
  induction l with
  | nil => simp [sortByGapDesc]
  | cons x xs ih =>
    unfold sortByGapDesc
    exact (insertByGapDesc_perm x (sortByGapDesc xs)).trans (ih.cons x)

theorem insertByGapDesc_sorted (x : String × List Rat)
    (l : List (String × List Rat))
    (hl : l.Pairwise (fun a b => listMean b.2 ≤ listMean a.2)) :
    (insertByGapDesc x l).Pairwise (fun a b => listMean b.2 ≤ listMean a.2) := by
  induction l with
  | nil => simp [insertByGapDesc]
  | cons y ys ih =>
    rw [List.pairwise_cons] at hl
    unfold insertByGapDesc
    by_cases hc : listMean x.2 < listMean y.2
    · rw [if_pos hc]
      rw [List.pairwise_cons]
      constructor
      · intro z hz
        rcases List.mem_cons.mp ((insertByGapDesc_perm x ys).mem_iff.mp hz) with
          hzx | hzy
        · rw [hzx]
          exact le_of_lt hc
        · exact hl.1 z hzy
      · exact ih hl.2
    · rw [if_neg hc]
      rw [List.pairwise_cons]
      constructor
      · intro z hz
        rcases List.mem_cons.mp hz with hzy | hzy
        · rw [hzy]
          exact le_of_not_lt hc
        · exact le_trans (hl.1 z hzy) (le_of_not_lt hc)
      · rw [List.pairwise_cons]
        exact hl

theorem sortByGapDesc_sorted (l : List (String × List Rat)) :
    (sortByGapDesc l).Pairwise (fun a b => listMean b.2 ≤ listMean a.2) := by
  induction l with
  | nil => simp [sortByGapDesc]
  | cons x xs ih =>
    unfold sortByGapDesc
    exact insertByGapDesc_sorted x (sortByGapDesc xs) ih

theorem insertByGapDesc_filter_mean (x : String × List Rat)
    (l : List (String × List Rat)) (m : Rat)
    (hl : l.Pairwise (fun a b => listMean b.2 ≤ listMean a.2)) :
    (insertByGapDesc x l).filter (fun p => decide (listMean p.2 = m)) =
      if listMean x.2 = m then
        x :: l.filter (fun p => decide (listMean p.2 = m))
      else l.filter (fun p => decide (listMean p.2 = m)) := by
  induction l with
  | nil =>
    simp only [insertByGapDesc, List.filter]
    by_cases hm : listMean x.2 = m
    · simp [hm]
    · simp [hm]
  | cons y ys ih =>
    rw [List.pairwise_cons] at hl
    unfold insertByGapDesc
    by_cases hc : listMean x.2 < listMean y.2
    · rw [if_pos hc]
      by_cases hm : listMean x.2 = m
      · have hym : ¬ listMean y.2 = m := by
          intro hym
          rw [hym, ← hm] at hc
          exact lt_irrefl _ hc
        rw [if_pos hm]
        simp only [List.filter_cons]
        rw [ih hl.2, if_pos hm]
        simp [hym]
      · rw [if_neg hm]
        simp only [List.filter_cons]
        rw [ih hl.2, if_neg hm]
    · rw [if_neg hc]
      by_cases hm : listMean x.2 = m
      · simp [List.filter_cons, hm]
      · simp [List.filter_cons, hm]

theorem sortByGapDesc_filter_mean (l : List (String × List Rat)) (m : Rat) :
    (sortByGapDesc l).filter (fun p => decide (listMean p.2 = m)) =
      l.filter (fun p => decide (listMean p.2 = m)) := by
  induction l with
  | nil => rfl
  | cons x xs ih =>
    unfold sortByGapDesc
    rw [insertByGapDesc_filter_mean x (sortByGapDesc xs) m (sortByGapDesc_sorted xs)]
    by_cases hm : listMean x.2 = m
    · rw [if_pos hm, ih]
      simp [List.filter_cons, hm]
    · rw [if_neg hm, ih]
      simp [List.filter_cons, hm]

end SkillGapLemmas

section Claims

/-- Claim C1, counterexample: the claim says a question scores correct
exactly when the submitted index resolves to the *first* option flagged
correct, so selecting another option that is also flagged correct should
score as incorrect.  On a question whose two options are both flagged
correct, the first flagged option is at index 0, yet submitting index 1
is scored correct and earns full credit. -/
theorem C1_counterexample :
    firstCorrectIdx ⟨1, [⟨"A", true⟩, ⟨"B", true⟩], some "S", 1⟩ = some 0 ∧
    checkAnswer [("1", JValue.jint 1)]
      ⟨1, [⟨"A", true⟩, ⟨"B", true⟩], some "S", 1⟩ = .ok true ∧
    calculate_score [⟨1, [⟨"A", true⟩, ⟨"B", true⟩], some "S", 1⟩]
      [("1", JValue.jint 1)] 70 [] = .ok ⟨1, 1, 100, true, [("S", 100)]⟩ := by
  refine ⟨by decide, by decide, ?_⟩
  norm_num +decide [calculate_score, scoreLoop, checkAnswer, dictGet, dictGetD,
      dictSet, isJNull, pyIntOf, pyIndex, skillOf, totalPointsOf, overallScore,
      buildSkillScores, pyRound2, roundHalfEven, keys, -Int.self_sub_floor,
      show toString (1:Nat) = "1" from rfl, show toString (2:Nat) = "2" from rfl,
      show toString (3:Nat) = "3" from rfl]

/-- Claim C1 (amended): a question is scored as correct exactly when the
submitted answer parses to an index that resolves, with Python list
indexing, to an option whose own `isCorrect` flag is true — the scorer
never compares against the first flagged option, so when several options
are flagged correct, selecting any of them earns the question's points;
and `earned_points` is the sum of the points of the questions so scored
correct. -/
theorem C1_theorem :
    (∀ questions answers passing init st,
      calculate_score questions answers passing init = .ok st →
      st.earned_points =
        (questions.map
          (fun q => if answeredCorrectly answers q then q.points else 0)).sum) ∧
    (∀ answers (q : Question),
      checkAnswer answers q = .ok true ↔
      ∃ v n opt, dictGet answers (toString q.id) = some v ∧
        pyIntOf v = PyIntResult.ok n ∧ pyIndex q.options n = some opt ∧
        opt.isCorrect = true) := by
  constructor
  · intro questions answers passing init st h
    obtain ⟨lst, hl, hst⟩ := (calculate_score_ok_iff questions answers passing init st).mp h
    have he := scoreLoop_earned answers questions _ _ hl
    rw [hst]
    simpa using he
  · intro answers q
    exact checkAnswer_ok_true_iff answers q

/-- Witness for C1_theorem at a concrete input. -/
theorem C1_witness :
    (ScoreOutcome.mk 1 1 100 true [("S", 100)]).earned_points =
      (([⟨1, [⟨"A", true⟩, ⟨"B", true⟩], some "S", 1⟩] : List Question).map
        (fun q =>
          if answeredCorrectly [("1", JValue.jint 1)] q then q.points else 0)).sum :=
  C1_theorem.1 [⟨1, [⟨"A", true⟩, ⟨"B", true⟩], some "S", 1⟩]
    [("1", JValue.jint 1)] 70 [] ⟨1, 1, 100, true, [("S", 100)]⟩ (by
      norm_num +decide [calculate_score, scoreLoop, checkAnswer, dictGet, dictGetD,
      dictSet, isJNull, pyIntOf, pyIndex, skillOf, totalPointsOf, overallScore,
      buildSkillScores, pyRound2, roundHalfEven, keys, -Int.self_sub_floor,
      show toString (1:Nat) = "1" from rfl, show toString (2:Nat) = "2" from rfl,
      show toString (3:Nat) = "3" from rfl])

/-- Claim C2, counterexample: the claim says `calculate_score` never
raises for any submission value, but the `except (IndexError, ValueError)`
clause does not catch `TypeError`: an answer value that is a JSON list
makes `int(answer)` raise `TypeError`, which escapes the method. -/
theorem C2_counterexample :
    calculate_score [⟨1, [⟨"A", true⟩], some "S", 1⟩]
      [("1", JValue.jarr [])] 70 [] = .error () := by
  decide

/-- Claim C2 (amended): for every submission whose answer values are
JSON null, booleans, numbers or strings (anything except a list or
object), `calculate_score` returns a result and never raises; within
those values a missing answer, an unparseable answer (`ValueError`) and
an out-of-range index (`IndexError`) are each scored exactly as an
incorrect answer is.  A list- or object-valued answer instead raises an
uncaught `TypeError`. -/
theorem C2_theorem :
    (∀ (questions : List Question) (answers : List (String × JValue))
        (passing : Nat) (init : List (String × Rat)),
      (∀ p ∈ answers, safeAnswerValue p.2 = true) →
      ∃ st, calculate_score questions answers passing init = .ok st) ∧
    (∀ answers (q : Question),
      dictGet answers (toString q.id) = none →
      checkAnswer answers q = .ok false) ∧
    (∀ answers (q : Question) (v : JValue),
      dictGet answers (toString q.id) = some v → pyIntOf v = .valueError →
      checkAnswer answers q = .ok false) ∧
    (∀ answers (q : Question) (v : JValue) (n : Int),
      dictGet answers (toString q.id) = some v → pyIntOf v = .ok n →
      pyIndex q.options n = none →
      checkAnswer answers q = .ok false) := by
  refine ⟨?_, ?_, ?_, ?_⟩
  · intro questions answers passing init hall
    obtain ⟨lst, hl⟩ := scoreLoop_ok_of_no_typeError answers questions ⟨0, [], []⟩
      (fun q _ => checkAnswer_ne_error_of_safe answers q hall)
    exact ⟨_, (calculate_score_ok_iff questions answers passing init _).mpr ⟨lst, hl, rfl⟩⟩
  · intro answers q h
    exact checkAnswer_missing answers q h
  · intro answers q v hv hpi
    exact checkAnswer_valueError answers q hv hpi
  · intro answers q v n hv hpi hx
    exact checkAnswer_indexError answers q hv hpi hx

/-- Witness for C2_theorem at a concrete input: an unparseable string, a
float, a bool and a null answer, none of which raises. -/
theorem C2_witness :
    ∃ st, calculate_score
      [⟨1, [⟨"A", true⟩], some "S", 1⟩, ⟨2, [⟨"A", true⟩], some "S", 1⟩]
      [("1", JValue.jstr "oops"), ("2", JValue.jfloat (7/2)),
       ("3", JValue.jnull), ("4", JValue.jbool true)] 70 [] = .ok st :=
  C2_theorem.1 _ _ 70 [] (by decide)

/-- Claim C3, counterexample: the claim says the returned overall score
is rounded to 2 decimal places half-up, and that skill percentages are
rounded half-up.  In fact the overall score is returned unrounded
(1 of 3 points yields exactly 100/3, not 33.33), and skill percentages
use Python's `round`, which rounds halves to even: a skill fraction of
57/160 gives exactly 35.625 %, stored as 35.62 where half-up rounding
gives 35.63. -/
theorem C3_counterexample :
    calculate_score
      [⟨1, [⟨"A", true⟩], some "S", 1⟩, ⟨2, [⟨"A", true⟩], some "S", 1⟩,
        ⟨3, [⟨"A", true⟩], some "S", 1⟩]
      [("1", JValue.jint 0)] 70 [] =
      .ok ⟨3, 1, 100/3, false, [("S", 3333/100)]⟩ ∧
    roundHalfUp2 (100/3) ≠ (100/3 : Rat) ∧
    calculate_score
      [⟨1, [⟨"A", true⟩], some "S", 57⟩,
        ⟨2, [⟨"A", true⟩, ⟨"B", false⟩], some "S", 103⟩]
      [("1", JValue.jint 0), ("2", JValue.jint 1)] 70 [] =
      .ok ⟨160, 57, 285/8, false, [("S", 1781/50)]⟩ ∧
    roundHalfUp2 ((57 : Rat) / 160 * 100) = 3563/100 ∧
    ((1781 : Rat) / 50) ≠ ((3563 : Rat) / 100) := by
  refine ⟨?_, by norm_num [roundHalfUp2], ?_, by norm_num [roundHalfUp2],
    by norm_num⟩
  · norm_num +decide [calculate_score, scoreLoop, checkAnswer, dictGet, dictGetD,
      dictSet, isJNull, pyIntOf, pyIndex, skillOf, totalPointsOf, overallScore,
      buildSkillScores, pyRound2, roundHalfEven, keys, -Int.self_sub_floor,
      show toString (1:Nat) = "1" from rfl, show toString (2:Nat) = "2" from rfl,
      show toString (3:Nat) = "3" from rfl]
  · norm_num +decide [calculate_score, scoreLoop, checkAnswer, dictGet, dictGetD,
      dictSet, isJNull, pyIntOf, pyIndex, skillOf, totalPointsOf, overallScore,
      buildSkillScores, pyRound2, roundHalfEven, keys, -Int.self_sub_floor,
      show toString (1:Nat) = "1" from rfl, show toString (2:Nat) = "2" from rfl,
      show toString (3:Nat) = "3" from rfl]

/-- Claim C3 (amended): whenever `total_points > 0` the returned overall
score is exactly `earned_points / total_points * 100`, unrounded (and `0`
when `total_points = 0`); every per-skill percentage is
`round(correct / total * 100, 2)` with Python's round-half-to-even
(or `0` for a zero-point skill). -/
theorem C3_theorem :
    ∀ questions answers passing st,
      calculate_score questions answers passing [] = .ok st →
      ((0 < st.total_points →
          st.score = (st.earned_points : Rat) / (st.total_points : Rat) * 100) ∧
       (st.total_points = 0 → st.score = 0) ∧
       (∀ lst, scoreLoop answers questions ⟨0, [], []⟩ = .ok lst →
         ∀ s v, (s, v) ∈ st.skill_scores →
           (0 < dictGetD lst.skill_total s 0 ∧
             v = pyRound2 (((dictGetD lst.skill_correct s 0 : Nat) : Rat) /
               ((dictGetD lst.skill_total s 0 : Nat) : Rat) * 100)) ∨
           (dictGetD lst.skill_total s 0 = 0 ∧ v = 0))) := by
  intro questions answers passing st h
  obtain ⟨lst0, hl0, hst⟩ := (calculate_score_ok_iff questions answers passing [] st).mp h
  subst hst
  refine ⟨?_, ?_, ?_⟩
  · intro hpos
    dsimp at hpos ⊢
    unfold overallScore
    rw [if_pos hpos]
  · intro hz
    dsimp at hz ⊢
    unfold overallScore
    rw [hz]
    simp
  · intro lst hl s v hm
    have hsame : lst = lst0 := by
      rw [hl] at hl0
      injection hl0
    subst hsame
    have hnd : (keys lst.skill_total).Nodup :=
      scoreLoop_skill_total_nodup answers questions _ _ hl (by simp [keys])
    dsimp at hm
    rw [buildSkillScores_eq_map lst hnd] at hm
    obtain ⟨p, hp, heq⟩ := List.mem_map.mp hm
    obtain ⟨k, t⟩ := p
    injection heq with h1 h2
    subst h1
    have hget : dictGet lst.skill_total k = some t := dictGet_of_mem_nodup hnd hp
    have hgd : dictGetD lst.skill_total k 0 = t := by simp [dictGetD, hget]
    by_cases hpos : 0 < t
    · left
      refine ⟨by rw [hgd]; exact hpos, ?_⟩
      rw [hgd, ← h2]
      simp [hpos]
    · right
      have ht0 : t = 0 := by omega
      refine ⟨by rw [hgd, ht0], ?_⟩
      rw [← h2, ht0]
      simp

/-- Witness for C3_theorem at a concrete input. -/
theorem C3_witness :
    0 < (ScoreOutcome.mk 3 1 (100/3) false [("S", 3333/100)]).total_points ∧
    (ScoreOutcome.mk 3 1 (100/3) false [("S", 3333/100)]).score =
      ((ScoreOutcome.mk 3 1 (100/3) false [("S", 3333/100)]).earned_points : Rat) /
        ((ScoreOutcome.mk 3 1 (100/3) false [("S", 3333/100)]).total_points : Rat) * 100 :=
  ⟨by decide,
    (C3_theorem
      [⟨1, [⟨"A", true⟩], some "S", 1⟩, ⟨2, [⟨"A", true⟩], some "S", 1⟩,
        ⟨3, [⟨"A", true⟩], some "S", 1⟩]
      [("1", JValue.jint 0)] 70 ⟨3, 1, 100/3, false, [("S", 3333/100)]⟩
      (by
        norm_num +decide [calculate_score, scoreLoop, checkAnswer, dictGet, dictGetD,
      dictSet, isJNull, pyIntOf, pyIndex, skillOf, totalPointsOf, overallScore,
      buildSkillScores, pyRound2, roundHalfEven, keys, -Int.self_sub_floor,
      show toString (1:Nat) = "1" from rfl, show toString (2:Nat) = "2" from rfl,
      show toString (3:Nat) = "3" from rfl])).1 (by decide)⟩

/-- Claim C4: earned points never exceed total points, and the resulting
score always lies in [0, 100]. -/
theorem C4_theorem :
    ∀ questions answers passing init st,
      calculate_score questions answers passing init = .ok st →
      st.earned_points ≤ st.total_points ∧ 0 ≤ st.score ∧ st.score ≤ 100 := by
  intro questions answers passing init st h
  obtain ⟨lst, hl, hst⟩ := (calculate_score_ok_iff questions answers passing init st).mp h
  subst hst
  have he := scoreLoop_earned answers questions _ _ hl
  have hle : lst.earned_points ≤ totalPointsOf questions := by
    rw [he]
    unfold totalPointsOf
    simp only [LoopState.earned_points, Nat.zero_add]
    apply List.sum_le_sum
    intro q _
    split <;> simp
  refine ⟨hle, ?_, ?_⟩
  · dsimp
    unfold overallScore
    split
    · positivity
    · exact le_refl 0
  · dsimp
    unfold overallScore
    split
    · rename_i hpos
      rw [div_mul_eq_mul_div, div_le_iff₀ (by exact_mod_cast hpos)]
      have hc : (lst.earned_points : Rat) ≤ (totalPointsOf questions : Rat) := by
        exact_mod_cast hle
      nlinarith
    · norm_num

/-- Witness for C4_theorem at a concrete input. -/
theorem C4_witness :
    (ScoreOutcome.mk 1 1 100 true [("S", 100)]).earned_points ≤
      (ScoreOutcome.mk 1 1 100 true [("S", 100)]).total_points ∧
    0 ≤ (ScoreOutcome.mk 1 1 100 true [("S", 100)]).score ∧
    (ScoreOutcome.mk 1 1 100 true [("S", 100)]).score ≤ 100 :=
  C4_theorem [⟨1, [⟨"A", true⟩, ⟨"B", true⟩], some "S", 1⟩]
    [("1", JValue.jint 1)] 70 [] ⟨1, 1, 100, true, [("S", 100)]⟩ (by
      norm_num +decide [calculate_score, scoreLoop, checkAnswer, dictGet, dictGetD,
      dictSet, isJNull, pyIntOf, pyIndex, skillOf, totalPointsOf, overallScore,
      buildSkillScores, pyRound2, roundHalfEven, keys, -Int.self_sub_floor,
      show toString (1:Nat) = "1" from rfl, show toString (2:Nat) = "2" from rfl,
      show toString (3:Nat) = "3" from rfl])

/-- Claim C5: the keys of the `skill_scores` mapping produced by
`calculate_score` (on an attempt whose `skill_scores` field starts at its
default `{}`) are exactly the distinct skill labels of the questions,
each appearing once, where a question without a `skill_category` counts
under `"General"`. -/
theorem C5_theorem :
    (∀ questions answers passing st,
      calculate_score questions answers passing [] = .ok st →
      ((∀ s, (∃ v, (s, v) ∈ st.skill_scores) ↔ ∃ q ∈ questions, skillOf q = s) ∧
       (keys st.skill_scores).Nodup)) ∧
    (∀ q : Question, q.skill_category = none → skillOf q = "General") := by
  constructor
  · intro questions answers passing st h
    obtain ⟨lst, hl, hst⟩ := (calculate_score_ok_iff questions answers passing [] st).mp h
    subst hst
    have hnd : (keys lst.skill_total).Nodup :=
      scoreLoop_skill_total_nodup answers questions _ _ hl (by simp [keys])
    have hkeys :
        keys (buildSkillScores lst []) = keys lst.skill_total := by
      rw [buildSkillScores_eq_map lst hnd, keys_map_pair]
    constructor
    · intro s
      dsimp
      constructor
      · rintro ⟨v, hv⟩
        have hs : s ∈ keys lst.skill_total := hkeys ▸ mem_keys_of_mem hv
        have := (scoreLoop_skill_total_keys answers questions _ _ hl s).mp hs
        rcases this with hempty | hq
        · simp [keys] at hempty
        · exact hq
      · intro hq
        have hs : s ∈ keys (buildSkillScores lst []) := by
          rw [hkeys]
          exact (scoreLoop_skill_total_keys answers questions _ _ hl s).mpr (Or.inr hq)
        obtain ⟨v, hv⟩ := (mem_keys_iff_dictGet _ s).mp hs
        exact ⟨v, dictGet_mem hv⟩
    · dsimp
      rw [hkeys]
      exact hnd
  · intro q hq
    unfold skillOf
    rw [hq]

/-- Witness for C5_theorem at a concrete input. -/
theorem C5_witness :
    ((∀ s, (∃ v, (s, v) ∈ (ScoreOutcome.mk 1 1 100 true [("S", 100)]).skill_scores) ↔
      ∃ q ∈ ([⟨1, [⟨"A", true⟩, ⟨"B", true⟩], some "S", 1⟩] : List Question),
        skillOf q = s) ∧
     (keys (ScoreOutcome.mk 1 1 100 true [("S", 100)]).skill_scores).Nodup) :=
  C5_theorem.1 [⟨1, [⟨"A", true⟩, ⟨"B", true⟩], some "S", 1⟩]
    [("1", JValue.jint 1)] 70 ⟨1, 1, 100, true, [("S", 100)]⟩ (by
      norm_num +decide [calculate_score, scoreLoop, checkAnswer, dictGet, dictGetD,
      dictSet, isJNull, pyIntOf, pyIndex, skillOf, totalPointsOf, overallScore,
      buildSkillScores, pyRound2, roundHalfEven, keys, -Int.self_sub_floor,
      show toString (1:Nat) = "1" from rfl, show toString (2:Nat) = "2" from rfl,
      show toString (3:Nat) = "3" from rfl])

/-- Claim C7, counterexample: the claim asserts full credit for every
question set whenever the submission selects the correct option of every
question, but on a question set whose total points are 0 (here a single
question worth 0 points, correctly answered, with threshold 70 ≤ 100) the
guarded score is 0, not 100, and `passed` is false. -/
theorem C7_counterexample :
    checkAnswer [("1", JValue.jint 0)] ⟨1, [⟨"A", true⟩], some "S", 0⟩ = .ok true ∧
    calculate_score [⟨1, [⟨"A", true⟩], some "S", 0⟩]
      [("1", JValue.jint 0)] 70 [] = .ok ⟨0, 0, 0, false, [("S", 0)]⟩ := by
  refine ⟨by decide, ?_⟩
  norm_num +decide [calculate_score, scoreLoop, checkAnswer, dictGet, dictGetD,
      dictSet, isJNull, pyIntOf, pyIndex, skillOf, totalPointsOf, overallScore,
      buildSkillScores, pyRound2, roundHalfEven, keys, -Int.self_sub_floor,
      show toString (1:Nat) = "1" from rfl, show toString (2:Nat) = "2" from rfl,
      show toString (3:Nat) = "3" from rfl]

/-- Claim C7 (amended): for every question set with positive total
points and every passing threshold ≤ 100, a submission whose answer check
scores every question correct yields score exactly 100 and `passed`. -/
theorem C7_theorem :
    ∀ questions answers passing init st,
      passing ≤ 100 →
      0 < totalPointsOf questions →
      (∀ q ∈ questions, checkAnswer answers q = .ok true) →
      calculate_score questions answers passing init = .ok st →
      st.score = 100 ∧ st.passed = true := by
  intro questions answers passing init st hp ht hall h
  obtain ⟨lst, hl, hst⟩ := (calculate_score_ok_iff questions answers passing init st).mp h
  subst hst
  have he := scoreLoop_earned answers questions _ _ hl
  have hfull : lst.earned_points = totalPointsOf questions := by
    rw [he]
    unfold totalPointsOf
    simp only [LoopState.earned_points, Nat.zero_add]
    congr 1
    apply List.map_congr_left
    intro q hq
    have : answeredCorrectly answers q = true :=
      (answeredCorrectly_true_iff answers q).mpr (hall q hq)
    rw [this]
    simp
  have hscore : overallScore lst.earned_points (totalPointsOf questions) = 100 := by
    unfold overallScore
    rw [if_pos ht, hfull, div_self (by exact_mod_cast ht.ne')]
    norm_num
  constructor
  · dsimp
    exact hscore
  · dsimp
    rw [hscore]
    simp only [decide_eq_true_eq]
    exact_mod_cast hp

/-- Witness for C7_theorem at a concrete input. -/
theorem C7_witness :
    (ScoreOutcome.mk 1 1 100 true [("S", 100)]).score = 100 ∧
    (ScoreOutcome.mk 1 1 100 true [("S", 100)]).passed = true :=
  C7_theorem [⟨1, [⟨"A", true⟩, ⟨"B", true⟩], some "S", 1⟩]
    [("1", JValue.jint 1)] 70 [] ⟨1, 1, 100, true, [("S", 100)]⟩
    (by decide) (by decide) (by decide) (by
      norm_num +decide [calculate_score, scoreLoop, checkAnswer, dictGet, dictGetD,
      dictSet, isJNull, pyIntOf, pyIndex, skillOf, totalPointsOf, overallScore,
      buildSkillScores, pyRound2, roundHalfEven, keys, -Int.self_sub_floor,
      show toString (1:Nat) = "1" from rfl, show toString (2:Nat) = "2" from rfl,
      show toString (3:Nat) = "3" from rfl])

/-- Claim C8: on an assessment with no questions, and more generally
whenever the total points are 0, `calculate_score` returns score 0 for
every submission; the division is explicitly guarded, so nothing is ever
divided by zero. -/
theorem C8_theorem :
    (∀ (answers : List (String × JValue)) (passing : Nat)
        (init : List (String × Rat)),
      ∃ st, calculate_score [] answers passing init = .ok st ∧ st.score = 0) ∧
    (∀ questions answers passing init st,
      calculate_score questions answers passing init = .ok st →
      st.total_points = 0 → st.score = 0) := by
  constructor
  · intro answers passing init
    exact ⟨_, (calculate_score_ok_iff [] answers passing init _).mpr
      ⟨⟨0, [], []⟩, rfl, rfl⟩, rfl⟩
  · intro questions answers passing init st h hz
    obtain ⟨lst, hl, hst⟩ := (calculate_score_ok_iff questions answers passing init st).mp h
    subst hst
    dsimp at hz ⊢
    unfold overallScore
    rw [hz]
    simp

/-- Witness for C8_theorem at a concrete input. -/
theorem C8_witness :
    (ScoreOutcome.mk 0 0 0 false []).score = 0 :=
  C8_theorem.2 [] [("1", JValue.jint 3)] 70 [] ⟨0, 0, 0, false, []⟩
    (by decide) (by decide)

/-- Claim C10: a submitted answer parsing to a negative integer `-k` with
`1 ≤ k ≤ len(options)` resolves, by Python negative indexing, to the
`k`-th option from the end, and the question is scored by that option's
flag; in particular `-1` selects the last option and earns the question's
full points whenever the last option is flagged correct. -/
theorem C10_theorem :
    (∀ (q : Question) answers (v : JValue) (k : Nat) (opt : QOption),
      dictGet answers (toString q.id) = some v →
      pyIntOf v = PyIntResult.ok (-(k : Int)) →
      1 ≤ k → k ≤ q.options.length →
      q.options.get? (q.options.length - k) = some opt →
      checkAnswer answers q = .ok opt.isCorrect) ∧
    (∀ (q : Question) answers (v : JValue) (opt : QOption) passing init st,
      dictGet answers (toString q.id) = some v →
      pyIntOf v = PyIntResult.ok (-1) →
      q.options.getLast? = some opt →
      opt.isCorrect = true →
      calculate_score [q] answers passing init = .ok st →
      st.earned_points = q.points) := by
  constructor
  · intro q answers v k opt hv hpi h1 h2 hopt
    have hx : pyIndex q.options (-(k : Int)) = some opt := by
      rw [pyIndex_neg q.options k h1 h2]
      exact hopt
    exact checkAnswer_selected answers q hv hpi hx
  · intro q answers v opt passing init st hv hpi hlast hflag h
    have hne : q.options ≠ [] := by
      intro hnil
      rw [hnil] at hlast
      simp at hlast
    have hlen : 1 ≤ q.options.length := by
      cases hq : q.options with
      | nil => exact absurd hq hne
      | cons a l => simp [hq]
    have hget : q.options.get? (q.options.length - 1) = some opt := by
      rw [List.get?_eq_getElem?, ← List.getLast?_eq_getElem?]
      exact hlast
    have hx : pyIndex q.options (-1 : Int) = some opt :=
      (pyIndex_neg q.options 1 (le_refl 1) hlen).trans hget
    have hchk : checkAnswer answers q = .ok true := by
      have h3 := checkAnswer_selected answers q hv hpi hx
      rw [hflag] at h3
      exact h3
    obtain ⟨lst, hl, hst⟩ := (calculate_score_ok_iff [q] answers passing init st).mp h
    subst hst
    have he := scoreLoop_earned answers [q] _ _ hl
    have hac : answeredCorrectly answers q = true :=
      (answeredCorrectly_true_iff answers q).mpr hchk
    dsimp
    rw [he]
    simp [hac]

/-- Witness for C10_theorem at a concrete input: answer `-1` on a
question whose last option is the correct one. -/
theorem C10_witness :
    checkAnswer [("1", JValue.jint (-1))]
      ⟨1, [⟨"A", false⟩, ⟨"B", true⟩], some "S", 2⟩ = .ok true :=
  C10_theorem.1 ⟨1, [⟨"A", false⟩, ⟨"B", true⟩], some "S", 2⟩
    [("1", JValue.jint (-1))] (JValue.jint (-1)) 1 ⟨"B", true⟩
    (by rfl) (by rfl) (by decide) (by decide) (by rfl)

/-- Claim C6: the skill-gap aggregation of `AssessmentViewSet.submit`
computes, for each observed skill in first-observed order, the list of
gaps `100 - skill_score` over the attempts reporting that skill
(`observedEntries`, whose rounded `listMean` is the arithmetic mean of
those gaps), sorts the entries by descending mean gap with the stable
insertion of `sortByGapDesc`, keeps at most 5, and yields `[]` for zero
attempts.  The sort really is a stable descending sort: it permutes its
input, its output is pairwise descending in the mean, and entries of any
fixed mean keep their original (first-observed) order. -/
theorem C6_theorem :
    (∀ attempts, top_skill_gaps attempts =
      ((sortByGapDesc (observedEntries attempts)).take 5).map
        (fun p => (p.1, pyRound2 (listMean p.2)))) ∧
    (∀ attempts, (top_skill_gaps attempts).length ≤ 5) ∧
    top_skill_gaps [] = [] ∧
    (∀ l, List.Perm (sortByGapDesc l) l) ∧
    (∀ l, (sortByGapDesc l).Pairwise (fun a b => listMean b.2 ≤ listMean a.2)) ∧
    (∀ l m, (sortByGapDesc l).filter (fun p => decide (listMean p.2 = m)) =
      l.filter (fun p => decide (listMean p.2 = m))) := by
  refine ⟨?_, ?_, rfl, sortByGapDesc_perm, sortByGapDesc_sorted,
    sortByGapDesc_filter_mean⟩
  · intro attempts
    unfold top_skill_gaps
    rw [buildSkillGaps_eq_observedEntries]
  · intro attempts
    unfold top_skill_gaps
    simp only [List.length_map, List.length_take]
    omega

/-- Claim C9: `calculate_level` equals
`floor(sqrt(total_xp / 100)) + 1` floored at 1 — witnessed by the unique
`n` with `100 * n^2 ≤ total_xp < 100 * (n+1)^2`, so that `n` is the floor
of the real square root of `total_xp / 100` — it is non-decreasing, and
`calculate_level 0 = 1`. -/
theorem C9_theorem :
    (∀ xp : Nat, ∃ n : Nat,
      calculate_level xp = max 1 (n + 1) ∧
      100 * n ^ 2 ≤ xp ∧ xp < 100 * (n + 1) ^ 2) ∧
    (∀ a b : Nat, a ≤ b → calculate_level a ≤ calculate_level b) ∧
    calculate_level 0 = 1 ∧
    (∀ xp : Nat, 1 ≤ calculate_level xp) := by
  refine ⟨?_, ?_, by decide, ?_⟩
  · intro xp
    refine ⟨Nat.sqrt (xp / 100), rfl, ?_, ?_⟩
    · have h1 : Nat.sqrt (xp / 100) * Nat.sqrt (xp / 100) ≤ xp / 100 :=
        Nat.sqrt_le (xp / 100)
      have hpow : Nat.sqrt (xp / 100) ^ 2 =
          Nat.sqrt (xp / 100) * Nat.sqrt (xp / 100) := by ring
      rw [hpow]
      generalize Nat.sqrt (xp / 100) * Nat.sqrt (xp / 100) = m at h1 ⊢
      omega
    · have h2 : xp / 100 < (Nat.sqrt (xp / 100) + 1) * (Nat.sqrt (xp / 100) + 1) :=
        Nat.lt_succ_sqrt (xp / 100)
      have hpow : (Nat.sqrt (xp / 100) + 1) ^ 2 =
          (Nat.sqrt (xp / 100) + 1) * (Nat.sqrt (xp / 100) + 1) := by ring
      rw [hpow]
      generalize (Nat.sqrt (xp / 100) + 1) * (Nat.sqrt (xp / 100) + 1) = m at h2 ⊢
      omega
  · intro a b hab
    have hdiv : a / 100 ≤ b / 100 := Nat.div_le_div_right hab
    have hs : Nat.sqrt (a / 100) ≤ Nat.sqrt (b / 100) := Nat.sqrt_le_sqrt hdiv
    unfold calculate_level
    omega
  · intro xp
    unfold calculate_level
    omega

/-- Witness for C9_theorem at concrete inputs. -/
theorem C9_witness : calculate_level 250 ≤ calculate_level 1000 :=
  C9_theorem.2.1 250 1000 (by decide)

end Claims

end EduAI
